/-
Verification of the retrieval-ranking and evaluation-metrics engine of the
academic-rag-system repository.

The embedding mirrors `src/evaluation.py` (class `MetricsCalculator`,
class `Evaluator`) and `src/retrieval.py` (classes `SemanticRetriever`,
`RankedRetriever`):

* Python floats are embedded as `ℚ` where only field arithmetic and
  comparisons occur (similarity scores, precision/recall/MRR values) and as
  `ℝ` where `math.log2` is involved (DCG/NDCG values).  Float comparisons and
  field operations on the actually occurring values are exact, so this is
  faithful up to rounding, which none of the verified claims depend on.
* Python `int` cutoffs `k` are embedded as `ℤ` so that the `k <= 0` guards
  of the source are represented on the full domain.
* Python `Set[str]` is embedded as `Finset String`; `Dict[int, float]` as an
  association list `List (ℕ × _)` with the `dict.get key default` operation;
  the optional `Dict[str, float]` of graded relevance scores as
  `Option (List (String × ℝ))`, where Python's truthiness test
  `if relevance_scores:` is false exactly for `none` and `some []`.
* The vector store behind `EmbeddingManager.query(query, k)` is embedded as
  the ranked list `store : List Chunk` of results for the query at hand;
  `query(query, k)` returns its first `k` entries (`List.take`).
-/
import Mathlib

set_option maxHeartbeats 1000000

/-! ## Retrieval layer (`src/retrieval.py`) -/

/-- One retrieval result, as assembled by `SemanticRetriever.retrieve`:
text, source document, chunk index and vector-store distance. -/
structure Chunk where
  text : String
  source : String
  chunk_index : ℕ
  distance : ℚ
deriving DecidableEq, Repr

/-- `similarity_score = 1 - distance` (`retrieval.py`, line 66).  Not clamped:
it is negative whenever `distance > 1`. -/
def similarity_score (c : Chunk) : ℚ := 1 - c.distance

/-- `SemanticRetriever.retrieve(query, k)`: the first `k` ranked results of
the store for the query. -/
def retrieve (store : List Chunk) (k : ℕ) : List Chunk := store.take k

/-- The scan loop of `SemanticRetriever.retrieve_by_source` (lines 94-113):
walk the over-fetched list in order, skip sources already seen, append first
occurrences, and break as soon as `k` results are collected. -/
def dedupScan (k : ℕ) : List String → List Chunk → List Chunk → List Chunk
  | _, acc, [] => acc
  | seen, acc, c :: rest =>
    if c.source ∈ seen then dedupScan k seen acc rest
    else
      if k ≤ acc.length + 1 then acc ++ [c]
      else dedupScan k (c.source :: seen) (acc ++ [c]) rest

/-- `SemanticRetriever.retrieve_by_source(query, k, unique_sources)`:
with `unique_sources = False` it is plain `retrieve`; otherwise it
over-fetches `initial_k = k * 3` results and deduplicates by source. -/
def retrieve_by_source (store : List Chunk) (k : ℕ) (unique_sources : Bool) :
    List Chunk :=
  if !unique_sources then retrieve store k
  else dedupScan k [] [] (store.take (k * 3))

/-- `RankedRetriever.retrieve_and_rank(query, k, min_similarity, max_results)`:
retrieve `k` results, filter by similarity only when `min_similarity > 0`,
then truncate only when `max_results` is truthy (not `None` and nonzero) and
the list is longer than it. -/
def retrieve_and_rank (store : List Chunk) (k : ℕ) (min_similarity : ℚ)
    (max_results : Option ℕ) : List Chunk :=
  let results := retrieve store k
  let results1 :=
    if 0 < min_similarity then
      results.filter (fun r => min_similarity ≤ similarity_score r)
    else results
  match max_results with
  | none => results1
  | some m => if m ≠ 0 ∧ m < results1.length then results1.take m else results1

/-! ## Metrics layer (`src/evaluation.py`, class `MetricsCalculator`) -/

namespace MetricsCalculator

/-- `MetricsCalculator.precision_at_k` (lines 69-90). -/
def precision_at_k (retrieved : List String) (relevant : Finset String)
    (k : ℤ) : ℚ :=
  if k ≤ 0 ∨ retrieved = [] then 0
  else
    (((retrieved.take k.toNat).filter
        (fun d => decide (d ∈ relevant))).length : ℚ) / (k : ℚ)

/-- `MetricsCalculator.recall_at_k` (lines 92-113). -/
def recall_at_k (retrieved : List String) (relevant : Finset String)
    (k : ℤ) : ℚ :=
  if relevant = ∅ ∨ k ≤ 0 ∨ retrieved = [] then 0
  else
    (((retrieved.take k.toNat).filter
        (fun d => decide (d ∈ relevant))).length : ℚ) / (relevant.card : ℚ)

/-- The scan loop of `MetricsCalculator.mean_reciprocal_rank`
(lines 133-137): return `1 / rank` at the first relevant document. -/
def mrrAux (relevant : Finset String) : ℕ → List String → ℚ
  | _, [] => 0
  | rank, d :: rest =>
    if d ∈ relevant then 1 / (rank : ℚ) else mrrAux relevant (rank + 1) rest

/-- `MetricsCalculator.mean_reciprocal_rank` (lines 115-137). -/
def mean_reciprocal_rank (retrieved : List String)
    (relevant : Finset String) : ℚ :=
  if retrieved = [] ∨ relevant = ∅ then 0 else mrrAux relevant 1 retrieved

/-- The per-document gain of `dcg_at_k` (lines 161-164): the graded score
when the scores dict is truthy (non-`None` and non-empty) and contains the
document, else binary membership in `relevant`. -/
def gain (relevant : Finset String) (scores : Option (List (String × ℝ)))
    (doc : String) : ℝ :=
  match scores with
  | some l =>
    if l.isEmpty then (if doc ∈ relevant then 1 else 0)
    else
      match l.find? (fun p => p.1 == doc) with
      | some p => p.2
      | none => if doc ∈ relevant then 1 else 0
  | none => if doc ∈ relevant then 1 else 0

/-- The accumulation loop of `dcg_at_k` (lines 159-166): position `i` is
1-based, each document contributes `gain / log2 (i + 1)`. -/
noncomputable def dcgAux (relevant : Finset String)
    (scores : Option (List (String × ℝ))) : ℕ → List String → ℝ
  | _, [] => 0
  | i, doc :: rest =>
    gain relevant scores doc / Real.logb 2 ((i : ℝ) + 1) +
      dcgAux relevant scores (i + 1) rest

/-- `MetricsCalculator.dcg_at_k` (lines 139-168). -/
noncomputable def dcg_at_k (retrieved : List String) (relevant : Finset String)
    (k : ℤ) (scores : Option (List (String × ℝ))) : ℝ :=
  if k ≤ 0 ∨ retrieved = [] then 0
  else dcgAux relevant scores 1 (retrieved.take k.toNat)

/-- Stable insertion (descending by score) used to model Python's stable
`sorted(items, key=value, reverse=True)` of line 197: an element is placed
after every element with a score `≥` its own. -/
noncomputable def insertDesc (p : String × ℝ) :
    List (String × ℝ) → List (String × ℝ)
  | [] => [p]
  | q :: rest => if q.2 ≤ p.2 then p :: q :: rest else q :: insertDesc p rest

/-- Stable sort, descending by score: the semantics of
`sorted(relevance_scores.items(), key=lambda x: x[1], reverse=True)`. -/
noncomputable def sortDesc : List (String × ℝ) → List (String × ℝ)
  | [] => []
  | p :: rest => insertDesc p (sortDesc rest)

/-- The `ideal_docs` list of `ndcg_at_k` (lines 194-201): when the score dict
is truthy, all scored documents sorted by score descending and truncated to
`k`; otherwise the members of `relevant` in iteration order truncated to `k`. -/
noncomputable def idealDocs (relevant : Finset String) (k : ℤ)
    (scores : Option (List (String × ℝ))) : List String :=
  match scores with
  | some l =>
    if l.isEmpty then relevant.toList.take k.toNat
    else ((sortDesc l).take k.toNat).map Prod.fst
  | none => relevant.toList.take k.toNat

/-- `MetricsCalculator.ndcg_at_k` (lines 170-208): `dcg / idcg` with the
ideal ranking `idealDocs`; `0.0` is returned on the degenerate guard and
when `idcg == 0`. -/
noncomputable def ndcg_at_k (retrieved : List String)
    (relevant : Finset String) (k : ℤ)
    (scores : Option (List (String × ℝ))) : ℝ :=
  if k ≤ 0 ∨ retrieved = [] ∨ relevant = ∅ then 0
  else if dcg_at_k (idealDocs relevant k scores) relevant k scores = 0 then 0
  else
    dcg_at_k retrieved relevant k scores /
      dcg_at_k (idealDocs relevant k scores) relevant k scores

end MetricsCalculator

/-! ## Evaluator layer (`src/evaluation.py`, class `Evaluator`) -/

/-- The configuration held by `Evaluator.__init__` (lines 214-229). -/
structure EvalConfig where
  k_values : List ℕ
  deduplicate : Bool
  min_similarity : ℚ

/-- The `EvaluationMetrics` dataclass (lines 16-22); the K-indexed dicts are
association lists in insertion order. -/
structure EvalMetrics where
  precision_at_k : List (ℕ × ℚ)
  recall_at_k : List (ℕ × ℚ)
  mrr : ℚ
  ndcg_at_k : List (ℕ × ℝ)

/-- The `QueryResult` dataclass (lines 48-54). -/
structure QueryResultE where
  query : String
  retrieved_docs : List String
  relevant_docs : Finset String
  metrics : EvalMetrics

/-- Python's `d.get(key, default)` on an association list. -/
def dictGetD {β : Type} (l : List (ℕ × β)) (k : ℕ) (d : β) : β :=
  match l.find? (fun p => p.1 == k) with
  | some p => p.2
  | none => d

/-- `Evaluator.evaluate_query` (lines 231-284): retrieve (optionally
deduplicated), post-filter by similarity only when `min_similarity > 0.0`,
extract sources, and compute the three K-indexed metric dicts over the
configured `k_values` restricted to `k ≤ k_max`, plus MRR. -/
noncomputable def evaluate_query (cfg : EvalConfig) (store : List Chunk)
    (query : String) (relevant_docs : Finset String) (k_max : ℕ)
    (relevance_scores : Option (List (String × ℝ))) : QueryResultE :=
  let results :=
    if cfg.deduplicate then retrieve_by_source store k_max true
    else retrieve store k_max
  let results1 :=
    if 0 < cfg.min_similarity then
      results.filter (fun r => cfg.min_similarity ≤ similarity_score r)
    else results
  let retrieved := results1.map Chunk.source
  let ks := cfg.k_values.filter (fun k => k ≤ k_max)
  { query := query
    retrieved_docs := retrieved
    relevant_docs := relevant_docs
    metrics :=
      { precision_at_k := ks.map (fun k =>
          (k, MetricsCalculator.precision_at_k retrieved relevant_docs (k : ℤ)))
        recall_at_k := ks.map (fun k =>
          (k, MetricsCalculator.recall_at_k retrieved relevant_docs (k : ℤ)))
        mrr := MetricsCalculator.mean_reciprocal_rank retrieved relevant_docs
        ndcg_at_k := ks.map (fun k =>
          (k, MetricsCalculator.ndcg_at_k retrieved relevant_docs (k : ℤ)
                relevance_scores)) } }

/-- `Evaluator._aggregate_metrics` (lines 323-366): arithmetic mean of each
metric over the batch, with `dict.get(k, 0.0)` for per-query lookups; the
empty batch yields zero/empty metrics. -/
noncomputable def aggregate_metrics (k_values : List ℕ)
    (query_results : List QueryResultE) : EvalMetrics :=
  if query_results.isEmpty then
    { precision_at_k := [], recall_at_k := [], mrr := 0, ndcg_at_k := [] }
  else
    let n := query_results.length
    { precision_at_k := k_values.map (fun k =>
        (k, (query_results.map
              (fun qr => dictGetD qr.metrics.precision_at_k k 0)).sum / (n : ℚ)))
      recall_at_k := k_values.map (fun k =>
        (k, (query_results.map
              (fun qr => dictGetD qr.metrics.recall_at_k k 0)).sum / (n : ℚ)))
      mrr := (query_results.map (fun qr => qr.metrics.mrr)).sum / (n : ℚ)
      ndcg_at_k := k_values.map (fun k =>
        (k, (query_results.map
              (fun qr => dictGetD qr.metrics.ndcg_at_k k 0)).sum / (n : ℝ))) }

/-! ## Helper lemmas about the MRR scan -/

namespace MetricsCalculator

theorem mrrAux_nonneg (relevant : Finset String) :
    ∀ (l : List String) (rank : ℕ), 0 ≤ mrrAux relevant rank l := by
  intro l
  induction l with
  | nil => intro rank; simp [mrrAux]
  | cons d rest ih =>
    intro rank
    by_cases hd : d ∈ relevant
    · simp [mrrAux, hd]
    · simpa [mrrAux, hd] using ih (rank + 1)

theorem mrrAux_le_one (relevant : Finset String) :
    ∀ (l : List String) (rank : ℕ), 1 ≤ rank → mrrAux relevant rank l ≤ 1 := by
  intro l
  induction l with
  | nil => intro rank _; simp [mrrAux]
  | cons d rest ih =>
    intro rank hrank
    by_cases hd : d ∈ relevant
    · have hq : (1 : ℚ) ≤ (rank : ℚ) := by exact_mod_cast hrank
      simp only [mrrAux, hd, if_true]
      rw [div_le_one (by linarith)]
      exact hq
    · simpa [mrrAux, hd] using ih (rank + 1) (by omega)

theorem mrrAux_first_hit (relevant : Finset String) :
    ∀ (l : List String) (rank i : ℕ) (h : i < l.length),
      l.get ⟨i, h⟩ ∈ relevant →
      (∀ (j : ℕ) (hj : j < i), l.get ⟨j, hj.trans h⟩ ∉ relevant) →
      mrrAux relevant rank l = 1 / ((rank : ℚ) + (i : ℚ)) := by
  intro l
  induction l with
  | nil => intro rank i h; exact absurd h (by simp)
  | cons d rest ih =>
    intro rank i h hhit hmiss
    cases i with
    | zero =>
      simp only [List.get] at hhit
      simp [mrrAux, hhit]
    | succ i =>
      have hd : d ∉ relevant := by
        have := hmiss 0 (Nat.succ_pos i)
        simpa using this
      have hlen : i < rest.length := by simpa using h
      have := ih (rank + 1) i hlen (by simpa using hhit)
        (fun j hj => by
          have := hmiss (j + 1) (by omega)
          simpa using this)
      simp only [mrrAux, hd, if_false]
      rw [this]
      push_cast
      ring_nf

theorem mrrAux_all_miss (relevant : Finset String) :
    ∀ (l : List String) (rank : ℕ), (∀ d ∈ l, d ∉ relevant) →
      mrrAux relevant rank l = 0 := by
  intro l
  induction l with
  | nil => intro rank _; simp [mrrAux]
  | cons d rest ih =>
    intro rank hmiss
    have hd : d ∉ relevant := hmiss d (by simp)
    simpa [mrrAux, hd] using ih (rank + 1) (fun x hx => hmiss x (by simp [hx]))

end MetricsCalculator

/-- C6: `mean_reciprocal_rank` returns `1 / rank` of the first relevant item
(1-based), `0.0` when no retrieved item is relevant or either input is empty,
and its value does not depend on relevant items after the first hit (the
retrieved list `["a","b","c"]` with relevant `{"a","c"}` scores exactly 1). -/
theorem claim6_mrr_first_hit (retrieved : List String) (relevant : Finset String) :
    (∀ (i : ℕ) (h : i < retrieved.length),
        retrieved.get ⟨i, h⟩ ∈ relevant →
        (∀ (j : ℕ) (hj : j < i), retrieved.get ⟨j, hj.trans h⟩ ∉ relevant) →
        MetricsCalculator.mean_reciprocal_rank retrieved relevant = 1 / ((i : ℚ) + 1))
    ∧ ((retrieved = [] ∨ relevant = ∅ ∨ ∀ d ∈ retrieved, d ∉ relevant) →
        MetricsCalculator.mean_reciprocal_rank retrieved relevant = 0)
    ∧ MetricsCalculator.mean_reciprocal_rank ["a", "b", "c"] {"a", "c"} = 1 := by
  refine ⟨?_, ?_, ?_⟩
  · intro i h hhit hmiss
    have hne : retrieved ≠ [] := by
      intro hcon; rw [hcon] at h; exact absurd h (by simp)
    have hrel : relevant ≠ ∅ := Finset.ne_empty_of_mem hhit
    rw [MetricsCalculator.mean_reciprocal_rank, if_neg (by tauto)]
    rw [MetricsCalculator.mrrAux_first_hit relevant retrieved 1 i h hhit hmiss]
    norm_num
    ring_nf
  · intro hc
    rcases hc with hc | hc | hc
    · simp [MetricsCalculator.mean_reciprocal_rank, hc]
    · simp [MetricsCalculator.mean_reciprocal_rank, hc]
    · rw [MetricsCalculator.mean_reciprocal_rank]
      by_cases hg : retrieved = [] ∨ relevant = ∅
      · simp [hg]
      · rw [if_neg hg]
        exact MetricsCalculator.mrrAux_all_miss relevant retrieved 1 hc
  · simp +decide [MetricsCalculator.mean_reciprocal_rank, MetricsCalculator.mrrAux]

/-- Witness for C6 at a concrete input: in `["x","a"]` with relevant `{"a"}`
the first hit is at 1-based rank 2, so MRR is `1/2`. -/
theorem claim6_witness :
    MetricsCalculator.mean_reciprocal_rank ["x", "a"] {"a"} = 1 / ((1 : ℚ) + 1) :=
  (claim6_mrr_first_hit ["x", "a"] {"a"}).1 1 (by decide) (by decide)
    (by intro j hj; interval_cases j; simp)

/-- C2: `precision_at_k` divides the number of relevant items among the first
`k` retrieved by `k` itself (never by `min(k, len(retrieved))`): a singleton
relevant result at `k = 5` scores `1/5`, not `1`; and the function returns
`0.0` whenever `k ≤ 0` or the retrieved list is empty. -/
theorem claim2_precision_denominator (retrieved : List String)
    (relevant : Finset String) (k : ℤ) :
    (0 < k → retrieved ≠ [] →
      MetricsCalculator.precision_at_k retrieved relevant k =
        (((retrieved.take k.toNat).filter
            (fun d => decide (d ∈ relevant))).length : ℚ) / (k : ℚ))
    ∧ ((k ≤ 0 ∨ retrieved = []) →
        MetricsCalculator.precision_at_k retrieved relevant k = 0)
    ∧ MetricsCalculator.precision_at_k ["a"] {"a"} 5 = 1 / 5
    ∧ MetricsCalculator.precision_at_k ["a"] {"a"} 5 ≠ 1 := by
  refine ⟨?_, ?_, ?_, ?_⟩
  · intro hk hne
    rw [MetricsCalculator.precision_at_k,
      if_neg (show ¬(k ≤ 0 ∨ retrieved = []) by
        rintro (h | h)
        · omega
        · exact hne h)]
  · intro hc
    simp [MetricsCalculator.precision_at_k, hc]
  · simp +decide [MetricsCalculator.precision_at_k]
  · simp +decide [MetricsCalculator.precision_at_k]

/-- Witness for C2 at a concrete input: at `k = 2` on the two-element list
`["a","b"]` with only `"a"` relevant, the non-degenerate branch divides the
single hit by `k = 2`. -/
theorem claim2_witness :
    (0 : ℤ) < 2 ∧ (["a", "b"] : List String) ≠ [] ∧
      MetricsCalculator.precision_at_k ["a", "b"] {"a"} 2 =
        (((["a", "b"].take (2 : ℤ).toNat).filter
            (fun d => decide (d ∈ ({"a"} : Finset String)))).length : ℚ) / ((2 : ℤ) : ℚ) :=
  ⟨by decide, by decide,
    (claim2_precision_denominator ["a", "b"] {"a"} 2).1 (by decide) (by decide)⟩

/-- C7: with an empty relevant ground-truth set, every metric degrades to
exactly `0.0` on any inputs (no error path exists in the embedding). -/
theorem claim7_empty_relevant (retrieved : List String) (k : ℤ)
    (scores : Option (List (String × ℝ))) :
    MetricsCalculator.precision_at_k retrieved ∅ k = 0
    ∧ MetricsCalculator.recall_at_k retrieved ∅ k = 0
    ∧ MetricsCalculator.mean_reciprocal_rank retrieved ∅ = 0
    ∧ MetricsCalculator.ndcg_at_k retrieved ∅ k scores = 0 := by
  refine ⟨?_, ?_, ?_, ?_⟩
  · rw [MetricsCalculator.precision_at_k]
    by_cases hg : k ≤ 0 ∨ retrieved = []
    · simp [hg]
    · simp [hg]
  · simp [MetricsCalculator.recall_at_k]
  · simp [MetricsCalculator.mean_reciprocal_rank]
  · simp [MetricsCalculator.ndcg_at_k]

/-! ## Helper lemmas about the DCG accumulation -/

namespace MetricsCalculator

theorem logb2_pos (i : ℕ) (hi : 1 ≤ i) : 0 < Real.logb 2 ((i : ℝ) + 1) := by
  apply Real.logb_pos (by norm_num)
  have : (1 : ℝ) ≤ (i : ℝ) := by exact_mod_cast hi
  linarith

theorem logb2_nonneg (i : ℕ) : 0 ≤ Real.logb 2 ((i : ℝ) + 1) := by
  apply Real.logb_nonneg (by norm_num)
  have : (0 : ℝ) ≤ (i : ℝ) := Nat.cast_nonneg i
  linarith

theorem logb2_anti (i : ℕ) (hi : 1 ≤ i) :
    1 / Real.logb 2 (((i : ℝ) + 1) + 1) ≤ 1 / Real.logb 2 ((i : ℝ) + 1) := by
  apply one_div_le_one_div_of_le (logb2_pos i hi)
  apply Real.logb_le_logb_of_le (by norm_num)
  · have : (1 : ℝ) ≤ (i : ℝ) := by exact_mod_cast hi
    linarith
  · linarith

theorem gain_none_nonneg (relevant : Finset String) (doc : String) :
    0 ≤ gain relevant none doc := by
  rw [gain]
  by_cases h : doc ∈ relevant <;> simp [h]

theorem gain_none_of_mem (relevant : Finset String) {doc : String}
    (h : doc ∈ relevant) : gain relevant none doc = 1 := by
  simp [gain, h]

theorem gain_none_of_not_mem (relevant : Finset String) {doc : String}
    (h : doc ∉ relevant) : gain relevant none doc = 0 := by
  simp [gain, h]

theorem dcgAux_nonneg (relevant : Finset String) :
    ∀ (l : List String) (i : ℕ), 0 ≤ dcgAux relevant none i l := by
  intro l
  induction l with
  | nil => intro i; simp [dcgAux]
  | cons d rest ih =>
    intro i
    rw [dcgAux]
    have h1 : 0 ≤ gain relevant none d / Real.logb 2 ((i : ℝ) + 1) :=
      div_nonneg (gain_none_nonneg relevant d) (logb2_nonneg i)
    linarith [ih (i + 1)]

/-- The ideal DCG of `n` all-relevant documents starting at position `pos`:
`∑ 1 / log2 (pos + j + 1)` for `j < n`. -/
noncomputable def idealSumAux : ℕ → ℕ → ℝ
  | _, 0 => 0
  | pos, n + 1 => 1 / Real.logb 2 ((pos : ℝ) + 1) + idealSumAux (pos + 1) n

theorem idealSumAux_nonneg : ∀ (n pos : ℕ), 0 ≤ idealSumAux pos n := by
  intro n
  induction n with
  | zero => intro pos; simp [idealSumAux]
  | succ n ih =>
    intro pos
    rw [idealSumAux]
    have := one_div_nonneg.mpr (logb2_nonneg pos)
    linarith [ih (pos + 1)]

theorem idealSumAux_anti : ∀ (n pos : ℕ), 1 ≤ pos →
    idealSumAux (pos + 1) n ≤ idealSumAux pos n := by
  intro n
  induction n with
  | zero => intro pos _; simp [idealSumAux]
  | succ n ih =>
    intro pos hpos
    rw [idealSumAux, idealSumAux]
    have h1 := logb2_anti pos hpos
    have h2 := ih (pos + 1) (by omega)
    push_cast at h1 ⊢
    linarith

theorem idealSumAux_pos : ∀ (n pos : ℕ), 1 ≤ pos → 1 ≤ n →
    0 < idealSumAux pos n := by
  intro n pos hpos hn
  cases n with
  | zero => omega
  | succ n =>
    rw [idealSumAux]
    have h1 : 0 < 1 / Real.logb 2 ((pos : ℝ) + 1) :=
      one_div_pos.mpr (logb2_pos pos hpos)
    linarith [idealSumAux_nonneg n (pos + 1)]

theorem idealSumAux_succ : ∀ (n pos : ℕ), idealSumAux pos (n + 1) =
    idealSumAux pos n + 1 / Real.logb 2 (((pos : ℝ) + (n : ℝ)) + 1) := by
  intro n
  induction n with
  | zero => intro pos; rw [idealSumAux, idealSumAux, idealSumAux]; push_cast; ring_nf
  | succ n ih =>
    intro pos
    rw [idealSumAux, ih (pos + 1)]
    rw [show idealSumAux pos (n + 1) =
      1 / Real.logb 2 ((pos : ℝ) + 1) + idealSumAux (pos + 1) n from rfl]
    push_cast
    ring_nf

theorem idealSumAux_mono (pos : ℕ) : ∀ {m n : ℕ}, m ≤ n →
    idealSumAux pos m ≤ idealSumAux pos n := by
  intro m n h
  induction n with
  | zero =>
    have : m = 0 := by omega
    simp [this]
  | succ n ih =>
    by_cases hm : m = n + 1
    · simp [hm]
    · have h1 : m ≤ n := by omega
      have h2 := ih h1
      rw [idealSumAux_succ]
      have := one_div_nonneg.mpr (logb2_nonneg (pos + n))
      push_cast at this
      linarith

theorem dcgAux_le_idealSumAux (relevant : Finset String) :
    ∀ (l : List String) (pos : ℕ), 1 ≤ pos →
      dcgAux relevant none pos l ≤
        idealSumAux pos (l.filter (fun d => decide (d ∈ relevant))).length := by
  intro l
  induction l with
  | nil => intro pos _; simp [dcgAux, idealSumAux]
  | cons d rest ih =>
    intro pos hpos
    rw [dcgAux]
    by_cases hd : d ∈ relevant
    · have hcount : ((d :: rest).filter (fun x => decide (x ∈ relevant))).length =
          (rest.filter (fun x => decide (x ∈ relevant))).length + 1 := by
        simp [List.filter, hd]
      rw [hcount, gain_none_of_mem relevant hd, idealSumAux]
      have := ih (pos + 1) (by omega)
      have hdisc : (1 : ℝ) / Real.logb 2 ((pos : ℝ) + 1) =
          1 / Real.logb 2 ((pos : ℝ) + 1) := rfl
      linarith
    · have hcount : ((d :: rest).filter (fun x => decide (x ∈ relevant))).length =
          (rest.filter (fun x => decide (x ∈ relevant))).length := by
        simp [List.filter, hd]
      rw [hcount, gain_none_of_not_mem relevant hd]
      have h1 := ih (pos + 1) (by omega)
      have h2 := idealSumAux_anti
        (rest.filter (fun x => decide (x ∈ relevant))).length pos hpos
      simp only [zero_div, zero_add]
      linarith

theorem dcgAux_all_relevant (relevant : Finset String) :
    ∀ (l : List String) (pos : ℕ), (∀ d ∈ l, d ∈ relevant) →
      dcgAux relevant none pos l = idealSumAux pos l.length := by
  intro l
  induction l with
  | nil => intro pos _; simp [dcgAux, idealSumAux]
  | cons d rest ih =>
    intro pos hall
    rw [dcgAux, gain_none_of_mem relevant (hall d (by simp)),
      List.length_cons, idealSumAux,
      ih (pos + 1) (fun x hx => hall x (by simp [hx]))]

theorem countRel_le_card (relevant : Finset String) (l : List String)
    (h : l.Nodup) :
    (l.filter (fun d => decide (d ∈ relevant))).length ≤ relevant.card := by
  have hnodup : (l.filter (fun d => decide (d ∈ relevant))).Nodup :=
    h.filter _
  have hsub : (l.filter (fun d => decide (d ∈ relevant))).toFinset ⊆ relevant := by
    intro x hx
    rw [List.mem_toFinset, List.mem_filter] at hx
    exact of_decide_eq_true hx.2
  calc (l.filter (fun d => decide (d ∈ relevant))).length
      = (l.filter (fun d => decide (d ∈ relevant))).toFinset.card :=
        (List.toFinset_card_of_nodup hnodup).symm
    _ ≤ relevant.card := Finset.card_le_card hsub

end MetricsCalculator

/-- C1 counterexample: boundedness fails on the code as claimed.  With the
duplicated retrieved list `["a","a"]` the recall denominator `len(relevant)`
is exceeded (`recall = 2`), and with the graded score dict `{"b": 1/2}` the
retrieved document `"a"` falls back to binary gain `1` while the ideal list
`["b"]` only reaches `1/2`, so `ndcg = 2`. -/
theorem claim1_counterexample :
    (1 : ℚ) < MetricsCalculator.recall_at_k ["a", "a"] {"a"} 2
    ∧ (1 : ℝ) < MetricsCalculator.ndcg_at_k ["a"] {"a"} 1 (some [("b", 1 / 2)]) := by
  constructor
  · simp +decide [MetricsCalculator.recall_at_k]
  · have hsort : MetricsCalculator.sortDesc [("b", (1 : ℝ) / 2)] =
        [("b", (1 : ℝ) / 2)] := by
      rw [MetricsCalculator.sortDesc, MetricsCalculator.sortDesc,
        MetricsCalculator.insertDesc]
    have hideal : MetricsCalculator.idealDocs {"a"} 1 (some [("b", (1 : ℝ) / 2)]) =
        ["b"] := by
      rw [MetricsCalculator.idealDocs]
      rw [if_neg (by simp)]
      rw [hsort]
      rfl
    have hl2 : Real.logb 2 2 = 1 := Real.logb_self_eq_one (by norm_num)
    have hidcg : MetricsCalculator.dcg_at_k ["b"] {"a"} 1 (some [("b", (1 : ℝ) / 2)]) =
        1 / 2 := by
      rw [MetricsCalculator.dcg_at_k, if_neg (by simp)]
      simp +decide [MetricsCalculator.dcgAux, MetricsCalculator.gain]
      norm_num [hl2]
    have hdcg : MetricsCalculator.dcg_at_k ["a"] {"a"} 1 (some [("b", (1 : ℝ) / 2)]) =
        1 := by
      rw [MetricsCalculator.dcg_at_k, if_neg (by simp)]
      simp +decide [MetricsCalculator.dcgAux, MetricsCalculator.gain]
      norm_num [hl2]
    rw [MetricsCalculator.ndcg_at_k, if_neg (by simp), hideal, hidcg, hdcg]
    norm_num

/-- C1 amended: `precision_at_k` and `mean_reciprocal_rank` always lie in
`[0,1]`; `recall_at_k` lies in `[0,1]` provided the retrieved list has no
duplicate identifiers; `ndcg_at_k` lies in `[0,1]` provided additionally no
graded relevance scores are supplied (binary relevance).  The original
claim fails for duplicated retrieved lists and for graded score dicts
(`claim1_counterexample`). -/
theorem claim1_amended_boundedness (retrieved : List String)
    (relevant : Finset String) (k : ℤ) :
    (0 ≤ MetricsCalculator.precision_at_k retrieved relevant k
      ∧ MetricsCalculator.precision_at_k retrieved relevant k ≤ 1)
    ∧ (0 ≤ MetricsCalculator.mean_reciprocal_rank retrieved relevant
      ∧ MetricsCalculator.mean_reciprocal_rank retrieved relevant ≤ 1)
    ∧ (retrieved.Nodup →
        0 ≤ MetricsCalculator.recall_at_k retrieved relevant k
          ∧ MetricsCalculator.recall_at_k retrieved relevant k ≤ 1)
    ∧ (retrieved.Nodup →
        0 ≤ MetricsCalculator.ndcg_at_k retrieved relevant k none
          ∧ MetricsCalculator.ndcg_at_k retrieved relevant k none ≤ 1) := by
  refine ⟨?_, ?_, ?_, ?_⟩
  · -- precision
    rw [MetricsCalculator.precision_at_k]
    by_cases hg : k ≤ 0 ∨ retrieved = []
    · simp [hg]
    · rw [if_neg hg]
      push_neg at hg
      have hk : 0 < k := by omega
      have hkq : (0 : ℚ) < (k : ℚ) := by exact_mod_cast hk
      constructor
      · positivity
      · rw [div_le_one hkq]
        have h1 : ((retrieved.take k.toNat).filter
            (fun d => decide (d ∈ relevant))).length ≤ k.toNat := by
          calc ((retrieved.take k.toNat).filter
              (fun d => decide (d ∈ relevant))).length
              ≤ (retrieved.take k.toNat).length := List.length_filter_le _ _
            _ ≤ k.toNat := by simp [List.length_take]
        calc (((retrieved.take k.toNat).filter
            (fun d => decide (d ∈ relevant))).length : ℚ)
            ≤ (k.toNat : ℚ) := by exact_mod_cast h1
          _ = (k : ℚ) := by
              exact_mod_cast congrArg (fun z => ((z : ℤ) : ℚ))
                (Int.toNat_of_nonneg (le_of_lt hk))
  · -- MRR
    rw [MetricsCalculator.mean_reciprocal_rank]
    by_cases hg : retrieved = [] ∨ relevant = ∅
    · simp [hg]
    · rw [if_neg hg]
      exact ⟨MetricsCalculator.mrrAux_nonneg relevant retrieved 1,
        MetricsCalculator.mrrAux_le_one relevant retrieved 1 le_rfl⟩
  · -- recall, assuming no duplicates
    intro hnd
    rw [MetricsCalculator.recall_at_k]
    by_cases hg : relevant = ∅ ∨ k ≤ 0 ∨ retrieved = []
    · simp [hg]
    · rw [if_neg hg]
      push_neg at hg
      have hcard : 0 < relevant.card := Finset.card_pos.mpr
        (Finset.nonempty_iff_ne_empty.mpr hg.1)
      have hcardq : (0 : ℚ) < (relevant.card : ℚ) := by exact_mod_cast hcard
      constructor
      · positivity
      · rw [div_le_one hcardq]
        have h1 : ((retrieved.take k.toNat).filter
            (fun d => decide (d ∈ relevant))).length ≤ relevant.card :=
          MetricsCalculator.countRel_le_card relevant _
            ((List.take_sublist _ _).nodup hnd)
        exact_mod_cast h1
  · -- NDCG with binary relevance, assuming no duplicates
    intro hnd
    rw [MetricsCalculator.ndcg_at_k]
    by_cases hg : k ≤ 0 ∨ retrieved = [] ∨ relevant = ∅
    · simp [hg]
    · rw [if_neg hg]
      push_neg at hg
      obtain ⟨hk, hne, hrel⟩ := hg
      by_cases hidcg :
          MetricsCalculator.dcg_at_k (MetricsCalculator.idealDocs relevant k none)
            relevant k none = 0
      · simp [hidcg]
      · rw [if_neg hidcg]
        have hkpos : 0 < k := by omega
        -- the ideal list: relevant docs in iteration order, truncated to k
        have hidealdef : MetricsCalculator.idealDocs relevant k none =
            relevant.toList.take k.toNat := rfl
        have hidealne : MetricsCalculator.idealDocs relevant k none ≠ [] := by
          rw [hidealdef]
          intro hcon
          apply hidcg
          rw [MetricsCalculator.dcg_at_k, hidealdef, hcon]
          simp
        -- idcg as an ideal sum
        have hidcg_eq :
            MetricsCalculator.dcg_at_k (MetricsCalculator.idealDocs relevant k none)
              relevant k none =
            MetricsCalculator.idealSumAux 1
              (min k.toNat relevant.card) := by
          rw [MetricsCalculator.dcg_at_k,
            if_neg (show ¬(k ≤ 0 ∨ MetricsCalculator.idealDocs relevant k none = []) by
              rintro (h | h)
              · omega
              · exact hidealne h),
            hidealdef, List.take_take, min_self]
          rw [MetricsCalculator.dcgAux_all_relevant relevant _ 1
            (fun d hd => Finset.mem_toList.mp (List.mem_of_mem_take hd))]
          congr 1
          simp [List.length_take, Finset.length_toList]
        -- dcg is bounded by the ideal sum at the hit count
        have hdcg_le :
            MetricsCalculator.dcg_at_k retrieved relevant k none ≤
            MetricsCalculator.dcg_at_k (MetricsCalculator.idealDocs relevant k none)
              relevant k none := by
          rw [MetricsCalculator.dcg_at_k,
            if_neg (show ¬(k ≤ 0 ∨ retrieved = []) by
              rintro (h | h)
              · omega
              · exact hne h),
            hidcg_eq]
          have h1 := MetricsCalculator.dcgAux_le_idealSumAux relevant
            (retrieved.take k.toNat) 1 le_rfl
          have hcount_le : ((retrieved.take k.toNat).filter
              (fun d => decide (d ∈ relevant))).length ≤ min k.toNat relevant.card := by
            apply le_min
            · calc ((retrieved.take k.toNat).filter
                  (fun d => decide (d ∈ relevant))).length
                  ≤ (retrieved.take k.toNat).length := List.length_filter_le _ _
                _ ≤ k.toNat := by simp [List.length_take]
            · exact MetricsCalculator.countRel_le_card relevant _
                ((List.take_sublist _ _).nodup hnd)
          exact h1.trans (MetricsCalculator.idealSumAux_mono 1 hcount_le)
        have hdcg_nonneg : 0 ≤ MetricsCalculator.dcg_at_k retrieved relevant k none := by
          rw [MetricsCalculator.dcg_at_k]
          by_cases hgg : k ≤ 0 ∨ retrieved = []
          · simp [hgg]
          · rw [if_neg hgg]
            exact MetricsCalculator.dcgAux_nonneg relevant _ 1
        have hidcg_nonneg : 0 ≤ MetricsCalculator.dcg_at_k
            (MetricsCalculator.idealDocs relevant k none) relevant k none := by
          rw [MetricsCalculator.dcg_at_k]
          by_cases hgg : k ≤ 0 ∨ MetricsCalculator.idealDocs relevant k none = []
          · simp [hgg]
          · rw [if_neg hgg]
            exact MetricsCalculator.dcgAux_nonneg relevant _ 1
        have hidcg_pos : 0 < MetricsCalculator.dcg_at_k
            (MetricsCalculator.idealDocs relevant k none) relevant k none :=
          lt_of_le_of_ne hidcg_nonneg (Ne.symm hidcg)
        constructor
        · positivity
        · rw [div_le_one hidcg_pos]
          exact hdcg_le

/-- Witness for C1 amended, at the duplicate-free list `["a","b"]` with
relevant `{"a"}` and `k = 2`. -/
theorem claim1_witness :
    (["a", "b"] : List String).Nodup
    ∧ (0 ≤ MetricsCalculator.recall_at_k ["a", "b"] {"a"} 2
        ∧ MetricsCalculator.recall_at_k ["a", "b"] {"a"} 2 ≤ 1)
    ∧ (0 ≤ MetricsCalculator.ndcg_at_k ["a", "b"] {"a"} 2 none
        ∧ MetricsCalculator.ndcg_at_k ["a", "b"] {"a"} 2 none ≤ 1) :=
  ⟨by decide,
    (claim1_amended_boundedness ["a", "b"] {"a"} 2).2.2.1 (by decide),
    (claim1_amended_boundedness ["a", "b"] {"a"} 2).2.2.2 (by decide)⟩

namespace MetricsCalculator

/-- Two retrieved lists with equal DCG and the same relevant set, cutoff and
scores have equal NDCG (the ideal ranking does not depend on the retrieved
list). -/
theorem ndcg_eq_of_dcg_eq (l1 l2 : List String) (relevant : Finset String)
    (k : ℤ) (scores : Option (List (String × ℝ)))
    (h1 : l1 ≠ []) (h2 : l2 ≠ [])
    (hd : dcg_at_k l1 relevant k scores = dcg_at_k l2 relevant k scores) :
    ndcg_at_k l1 relevant k scores = ndcg_at_k l2 relevant k scores := by
  rw [ndcg_at_k, ndcg_at_k, hd]
  refine if_congr ?_ rfl rfl
  constructor
  · rintro (h | h | h)
    · exact Or.inl h
    · exact absurd h h1
    · exact Or.inr (Or.inr h)
  · rintro (h | h | h)
    · exact Or.inl h
    · exact absurd h h2
    · exact Or.inr (Or.inr h)

end MetricsCalculator

/-- C9 counterexample: moving the relevant rank-5 item to rank 1 does NOT
strictly increase `ndcg_at_k` for every retrieved list: when the items at
ranks 1-4 are also relevant (here all five are), the move is a rotation of
equal gains and NDCG is unchanged. -/
theorem claim9_counterexample :
    ¬ (MetricsCalculator.ndcg_at_k ["a", "b", "c", "d", "e"]
          {"a", "b", "c", "d", "e"} 5 none <
        MetricsCalculator.ndcg_at_k ["e", "a", "b", "c", "d"]
          {"a", "b", "c", "d", "e"} 5 none) := by
  have hd1 : MetricsCalculator.dcg_at_k ["a", "b", "c", "d", "e"]
      {"a", "b", "c", "d", "e"} 5 none = MetricsCalculator.idealSumAux 1 5 := by
    rw [MetricsCalculator.dcg_at_k, if_neg (by simp),
      show List.take (Int.toNat 5) ["a", "b", "c", "d", "e"] =
        ["a", "b", "c", "d", "e"] from rfl,
      MetricsCalculator.dcgAux_all_relevant _ _ 1 (by decide)]
    rfl
  have hd2 : MetricsCalculator.dcg_at_k ["e", "a", "b", "c", "d"]
      {"a", "b", "c", "d", "e"} 5 none = MetricsCalculator.idealSumAux 1 5 := by
    rw [MetricsCalculator.dcg_at_k, if_neg (by simp),
      show List.take (Int.toNat 5) ["e", "a", "b", "c", "d"] =
        ["e", "a", "b", "c", "d"] from rfl,
      MetricsCalculator.dcgAux_all_relevant _ _ 1 (by decide)]
    rfl
  rw [MetricsCalculator.ndcg_eq_of_dcg_eq _ _ _ _ _ (by simp) (by simp)
    (hd1.trans hd2.symm)]
  exact lt_irrefl _

/-- C9 amended: moving a relevant item from rank 5 to rank 1 (everything else
equal, binary relevance without graded scores) strictly increases `ndcg_at_k`
for every `k ≥ 5` PROVIDED the items at ranks 1-4 are not relevant; when some
of them are relevant the increase can degenerate to equality
(see the counterexample). -/
theorem claim9_amended_ndcg_monotone (a1 a2 a3 a4 r : String)
    (t : List String) (relevant : Finset String) (k : ℤ)
    (hk : 5 ≤ k) (hr : r ∈ relevant)
    (h1 : a1 ∉ relevant) (h2 : a2 ∉ relevant)
    (h3 : a3 ∉ relevant) (h4 : a4 ∉ relevant) :
    MetricsCalculator.ndcg_at_k (a1 :: a2 :: a3 :: a4 :: r :: t) relevant k none <
      MetricsCalculator.ndcg_at_k (r :: a1 :: a2 :: a3 :: a4 :: t) relevant k none := by
  have hrel : relevant ≠ ∅ := Finset.ne_empty_of_mem hr
  obtain ⟨m, hm⟩ : ∃ m, k.toNat = m + 1 + 1 + 1 + 1 + 1 :=
    ⟨k.toNat - 5, by omega⟩
  have htake_b : (a1 :: a2 :: a3 :: a4 :: r :: t).take k.toNat =
      a1 :: a2 :: a3 :: a4 :: r :: t.take m := by
    rw [hm]; simp [List.take_succ_cons]
  have htake_a : (r :: a1 :: a2 :: a3 :: a4 :: t).take k.toNat =
      r :: a1 :: a2 :: a3 :: a4 :: t.take m := by
    rw [hm]; simp [List.take_succ_cons]
  -- the two DCG values share the tail contribution; only the discount of
  -- the single unit gain differs: 1/log2 6 versus 1/log2 2
  have hdcg_lt : MetricsCalculator.dcg_at_k (a1 :: a2 :: a3 :: a4 :: r :: t)
      relevant k none <
      MetricsCalculator.dcg_at_k (r :: a1 :: a2 :: a3 :: a4 :: t)
        relevant k none := by
    rw [MetricsCalculator.dcg_at_k, if_neg (by push_neg; exact ⟨by omega, by simp⟩),
      MetricsCalculator.dcg_at_k, if_neg (by push_neg; exact ⟨by omega, by simp⟩),
      htake_b, htake_a]
    simp only [MetricsCalculator.dcgAux,
      MetricsCalculator.gain_none_of_not_mem relevant h1,
      MetricsCalculator.gain_none_of_not_mem relevant h2,
      MetricsCalculator.gain_none_of_not_mem relevant h3,
      MetricsCalculator.gain_none_of_not_mem relevant h4,
      MetricsCalculator.gain_none_of_mem relevant hr,
      zero_div, zero_add, add_zero]
    apply add_lt_add_right
    apply one_div_lt_one_div_of_lt
    · apply Real.logb_pos (by norm_num)
      push_cast
      norm_num
    · apply Real.logb_lt_logb (by norm_num)
      · push_cast
        norm_num
      · push_cast
        norm_num
  -- the ideal list and hence IDCG agree on both sides and are positive
  have hidcg_pos : 0 < MetricsCalculator.dcg_at_k
      (MetricsCalculator.idealDocs relevant k none) relevant k none := by
    have hne : relevant.toList ≠ [] := by
      intro hcon
      exact hrel (Finset.toList_eq_nil.mp hcon)
    have hlen : 1 ≤ (relevant.toList.take k.toNat).length := by
      rw [List.length_take]
      have h1 : 1 ≤ relevant.toList.length := by
        cases hl : relevant.toList with
        | nil => exact absurd hl hne
        | cons x xs => simp
      omega
    have hidealne : MetricsCalculator.idealDocs relevant k none ≠ [] := by
      show relevant.toList.take k.toNat ≠ []
      intro hcon
      rw [hcon] at hlen
      simp at hlen
    rw [MetricsCalculator.dcg_at_k,
      if_neg (show ¬(k ≤ 0 ∨ MetricsCalculator.idealDocs relevant k none = []) by
        rintro (h | h)
        · omega
        · exact hidealne h)]
    show 0 < MetricsCalculator.dcgAux relevant none 1
      ((relevant.toList.take k.toNat).take k.toNat)
    rw [List.take_take, min_self,
      MetricsCalculator.dcgAux_all_relevant relevant _ 1
        (fun d hd => Finset.mem_toList.mp (List.mem_of_mem_take hd))]
    exact MetricsCalculator.idealSumAux_pos _ 1 le_rfl hlen
  rw [MetricsCalculator.ndcg_at_k,
    if_neg (show ¬(k ≤ 0 ∨ a1 :: a2 :: a3 :: a4 :: r :: t = [] ∨ relevant = ∅) by
      push_neg; exact ⟨by omega, by simp, hrel⟩),
    if_neg (ne_of_gt hidcg_pos),
    MetricsCalculator.ndcg_at_k,
    if_neg (show ¬(k ≤ 0 ∨ r :: a1 :: a2 :: a3 :: a4 :: t = [] ∨ relevant = ∅) by
      push_neg; exact ⟨by omega, by simp, hrel⟩),
    if_neg (ne_of_gt hidcg_pos)]
  exact (div_lt_div_iff_of_pos_right hidcg_pos).mpr hdcg_lt

/-- Witness for C9 amended at a concrete input: relevant `"a"` at rank 5
behind four non-relevant items, moved to rank 1, with `k = 5`. -/
theorem claim9_witness :
    MetricsCalculator.ndcg_at_k ["b1", "b2", "b3", "b4", "a"] {"a"} 5 none <
      MetricsCalculator.ndcg_at_k ["a", "b1", "b2", "b3", "b4"] {"a"} 5 none :=
  claim9_amended_ndcg_monotone "b1" "b2" "b3" "b4" "a" [] {"a"} 5
    (by decide) (by decide) (by decide) (by decide) (by decide) (by decide)

namespace MetricsCalculator

theorem gain_some_nil (relevant : Finset String) (doc : String) :
    gain relevant (some []) doc = gain relevant none doc := rfl

theorem dcgAux_some_nil (relevant : Finset String) :
    ∀ (l : List String) (i : ℕ),
      dcgAux relevant (some []) i l = dcgAux relevant none i l := by
  intro l
  induction l with
  | nil => intro i; rfl
  | cons d rest ih =>
    intro i
    rw [dcgAux, dcgAux, gain_some_nil, ih (i + 1)]

theorem dcg_at_k_some_nil (retrieved : List String) (relevant : Finset String)
    (k : ℤ) :
    dcg_at_k retrieved relevant k (some []) = dcg_at_k retrieved relevant k none := by
  rw [dcg_at_k, dcg_at_k]
  by_cases hg : k ≤ 0 ∨ retrieved = []
  · simp [hg]
  · rw [if_neg hg, if_neg hg, dcgAux_some_nil]

end MetricsCalculator

/-- C10: an empty graded-relevance dict behaves exactly like an omitted one:
for all inputs, `dcg_at_k` and `ndcg_at_k` with an empty relevance_scores
dict (embedded `some []`) equal the same calls with `relevance_scores = None`,
because Python's truthiness test treats `{}` as falsy and falls back to
binary set-membership relevance in both the gains and the ideal ranking. -/
theorem claim10_empty_scores_fallback (retrieved : List String)
    (relevant : Finset String) (k : ℤ) :
    MetricsCalculator.dcg_at_k retrieved relevant k (some []) =
      MetricsCalculator.dcg_at_k retrieved relevant k none
    ∧ MetricsCalculator.ndcg_at_k retrieved relevant k (some []) =
      MetricsCalculator.ndcg_at_k retrieved relevant k none := by
  refine ⟨MetricsCalculator.dcg_at_k_some_nil retrieved relevant k, ?_⟩
  rw [MetricsCalculator.ndcg_at_k, MetricsCalculator.ndcg_at_k,
    show MetricsCalculator.idealDocs relevant k (some []) =
      MetricsCalculator.idealDocs relevant k none from rfl,
    MetricsCalculator.dcg_at_k_some_nil
      (MetricsCalculator.idealDocs relevant k none) relevant k,
    MetricsCalculator.dcg_at_k_some_nil retrieved relevant k]

/-- C3 counterexample: at the configured threshold `min_similarity = 0.0` the
post-filter is NOT applied (the source guards it by `min_similarity > 0`), so
an item with strictly negative similarity (`distance = 3/2`,
`similarity = -1/2 < 0`) is kept by both `Evaluator.evaluate_query` and
`RankedRetriever.retrieve_and_rank`, contradicting the claimed exclusion of
every item strictly below the threshold. -/
theorem claim3_counterexample :
    similarity_score ⟨"t", "s", 0, 3 / 2⟩ < 0
    ∧ (evaluate_query ⟨[1], false, 0⟩ [⟨"t", "s", 0, 3 / 2⟩] "q" ∅ 1
        none).retrieved_docs = ["s"]
    ∧ retrieve_and_rank [⟨"t", "s", 0, 3 / 2⟩] 1 0 none =
        [⟨"t", "s", 0, 3 / 2⟩] := by
  refine ⟨by norm_num [similarity_score], by decide,
    by norm_num [retrieve_and_rank, retrieve]⟩

/-- C3 amended: the similarity post-filter of `Evaluator.evaluate_query` and
of `RankedRetriever.retrieve_and_rank` keeps exactly the items with
similarity `≥ min_similarity` (in retrieval order) whenever
`min_similarity > 0`; when `min_similarity ≤ 0` — including the configurable
value `0.0` — the filter is skipped entirely and every item is kept, even
items with strictly negative similarity. -/
theorem claim3_amended_threshold_filter (min_similarity : ℚ) (kvs : List ℕ)
    (store : List Chunk) (q : String) (rel : Finset String) (k_max k : ℕ) :
    (0 < min_similarity →
      (evaluate_query ⟨kvs, false, min_similarity⟩ store q rel k_max
          none).retrieved_docs =
        ((store.take k_max).filter
          (fun c => min_similarity ≤ similarity_score c)).map Chunk.source)
    ∧ (min_similarity ≤ 0 →
      (evaluate_query ⟨kvs, false, min_similarity⟩ store q rel k_max
          none).retrieved_docs =
        (store.take k_max).map Chunk.source)
    ∧ (0 < min_similarity →
      retrieve_and_rank store k min_similarity none =
        (store.take k).filter (fun c => min_similarity ≤ similarity_score c))
    ∧ (min_similarity ≤ 0 →
      retrieve_and_rank store k min_similarity none = store.take k) := by
  refine ⟨?_, ?_, ?_, ?_⟩
  · intro h
    simp [evaluate_query, retrieve, h]
  · intro h
    simp [evaluate_query, retrieve, not_lt.mpr h]
  · intro h
    simp [retrieve_and_rank, retrieve, h]
  · intro h
    simp [retrieve_and_rank, retrieve, not_lt.mpr h]

/-- Witness for C3 amended: with threshold `1/2` over a two-item store the
filter branch applies; with threshold `0` the skip branch applies. -/
theorem claim3_witness :
    ((0 : ℚ) < 1 / 2
      ∧ (evaluate_query ⟨[1], false, 1 / 2⟩
            [⟨"t1", "s1", 0, 0⟩, ⟨"t2", "s2", 1, 3 / 2⟩] "q" ∅ 2
            none).retrieved_docs =
          (([⟨"t1", "s1", 0, 0⟩, ⟨"t2", "s2", 1, 3 / 2⟩] : List Chunk).take 2
              |>.filter (fun c => 1 / 2 ≤ similarity_score c)).map Chunk.source)
    ∧ ((0 : ℚ) ≤ 0
      ∧ retrieve_and_rank [⟨"t1", "s1", 0, 0⟩, ⟨"t2", "s2", 1, 3 / 2⟩] 2 0 none =
          ([⟨"t1", "s1", 0, 0⟩, ⟨"t2", "s2", 1, 3 / 2⟩] : List Chunk).take 2) :=
  ⟨⟨by norm_num,
    (claim3_amended_threshold_filter (1 / 2) [1]
      [⟨"t1", "s1", 0, 0⟩, ⟨"t2", "s2", 1, 3 / 2⟩] "q" ∅ 2 2).1 (by norm_num)⟩,
   ⟨le_refl 0,
    (claim3_amended_threshold_filter 0 [1]
      [⟨"t1", "s1", 0, 0⟩, ⟨"t2", "s2", 1, 3 / 2⟩] "q" ∅ 2 2).2.2.2 (le_refl 0)⟩⟩

/-! ## Helper lemmas about source-level deduplication -/

/-- Specification-side dedup without the early stop: keep the first chunk of
each source not yet seen, scanning in order. -/
def dedupNoStop : List String → List Chunk → List Chunk
  | _, [] => []
  | seen, c :: rest =>
    if c.source ∈ seen then dedupNoStop seen rest
    else c :: dedupNoStop (c.source :: seen) rest

theorem dedupScan_eq_take (k : ℕ) :
    ∀ (l : List Chunk) (seen : List String) (acc : List Chunk),
      acc.length < k →
      dedupScan k seen acc l = acc ++ (dedupNoStop seen l).take (k - acc.length) := by
  intro l
  induction l with
  | nil => intro seen acc _; simp [dedupScan, dedupNoStop]
  | cons c rest ih =>
    intro seen acc hlt
    rw [dedupScan, dedupNoStop]
    by_cases hs : c.source ∈ seen
    · rw [if_pos hs, if_pos hs, ih seen acc hlt]
    · rw [if_neg hs, if_neg hs]
      by_cases hk : k ≤ acc.length + 1
      · have hk1 : k - acc.length = 1 := by omega
        rw [if_pos hk, hk1, List.take_succ_cons, List.take_zero]
      · have hk2 : k - acc.length = (k - (acc.length + 1)) + 1 := by omega
        rw [if_neg hk, ih (c.source :: seen) (acc ++ [c]) (by simp; omega)]
        rw [hk2, List.take_succ_cons]
        simp

theorem dedupNoStop_sublist :
    ∀ (l : List Chunk) (seen : List String), (dedupNoStop seen l).Sublist l := by
  intro l
  induction l with
  | nil => intro seen; simp [dedupNoStop]
  | cons c rest ih =>
    intro seen
    rw [dedupNoStop]
    by_cases hs : c.source ∈ seen
    · rw [if_pos hs]
      exact (ih seen).cons c
    · rw [if_neg hs]
      exact (ih (c.source :: seen)).cons₂ c

theorem dedupNoStop_nodup :
    ∀ (l : List Chunk) (seen : List String),
      ((dedupNoStop seen l).map Chunk.source).Nodup
      ∧ ∀ c ∈ dedupNoStop seen l, c.source ∉ seen := by
  intro l
  induction l with
  | nil => intro seen; simp [dedupNoStop]
  | cons c rest ih =>
    intro seen
    rw [dedupNoStop]
    by_cases hs : c.source ∈ seen
    · rw [if_pos hs]
      exact ih seen
    · rw [if_neg hs]
      obtain ⟨ihnodup, ihseen⟩ := ih (c.source :: seen)
      refine ⟨?_, ?_⟩
      · rw [List.map_cons, List.nodup_cons]
        refine ⟨?_, ihnodup⟩
        intro hmem
        obtain ⟨x, hx, hxs⟩ := List.mem_map.mp hmem
        exact (ihseen x hx) (by rw [hxs]; exact List.mem_cons_self _ _)
      · intro x hx
        rcases List.mem_cons.mp hx with hx | hx
        · rw [hx]; exact hs
        · intro hxseen
          exact (ihseen x hx) (List.mem_cons_of_mem _ hxseen)

/-- C4: deduplicated retrieval over-fetches exactly `3×k` items from the
store, keeps the first occurrence of each distinct source in store order and
stops at `k` unique sources (equivalently: it is the stop-free first-occurrence
dedup of the `3×k`-window, truncated to `k`); consequently its output has
pairwise-distinct sources, length at most `k`, and is a sublist (hence in
unchanged relative order, never re-sorted) of the over-fetched window — as in
the spec example, sources `A,B,A,C` with `k = 2` yield exactly `A,B`. -/
theorem claim4_dedup_retrieval (store : List Chunk) (k : ℕ) :
    retrieve_by_source store k true =
      (dedupNoStop [] (store.take (k * 3))).take k
    ∧ ((retrieve_by_source store k true).map Chunk.source).Nodup
    ∧ (retrieve_by_source store k true).length ≤ k
    ∧ (retrieve_by_source store k true).Sublist (store.take (k * 3))
    ∧ (retrieve_by_source
        [⟨"t1", "A", 0, 0⟩, ⟨"t2", "B", 1, 0⟩, ⟨"t3", "A", 2, 0⟩,
          ⟨"t4", "C", 3, 0⟩] 2 true).map Chunk.source = ["A", "B"] := by
  have hmain : retrieve_by_source store k true =
      (dedupNoStop [] (store.take (k * 3))).take k := by
    rw [retrieve_by_source]
    simp only [Bool.not_true, Bool.false_eq_true, if_false]
    cases k with
    | zero => simp [dedupScan]
    | succ n =>
      rw [dedupScan_eq_take (n + 1) _ [] [] (by simp)]
      simp
  refine ⟨hmain, ?_, ?_, ?_, by decide⟩
  · rw [hmain]
    exact ((dedupNoStop_nodup (store.take (k * 3)) []).1).sublist
      ((List.take_sublist _ _).map Chunk.source)
  · rw [hmain]
    exact (List.length_take_le _ _).trans le_rfl
  · rw [hmain]
    exact (List.take_sublist _ _).trans (dedupNoStop_sublist _ [])

theorem dictGetD_map_self {β : Type} (f : ℕ → β) (d : β) :
    ∀ (l : List ℕ) (k : ℕ), k ∈ l →
      dictGetD (l.map (fun x => (x, f x))) k d = f k := by
  intro l
  induction l with
  | nil => intro k hk; exact absurd hk (by simp)
  | cons x rest ih =>
    intro k hk
    rw [List.map_cons, dictGetD, List.find?_cons]
    by_cases hx : x = k
    · simp [hx]
    · have hbeq : ((x, f x).1 == k) = false := by
        simp [hx]
      rw [hbeq]
      have := ih k (by
        rcases List.mem_cons.mp hk with h | h
        · exact absurd h.symm hx
        · exact h)
      rw [dictGetD] at this
      exact this

/-- C5: for a non-empty batch the aggregate metrics are exactly the
arithmetic means of the per-query metrics: aggregate MRR is the sum of
per-query MRR values divided by `N`, and for each configured `k` the
aggregate `precision_at_k[k]`, `recall_at_k[k]` and `ndcg_at_k[k]` are the
sums of the per-query values (with the source's `get(k, 0.0)` lookup)
divided by `N`. -/
theorem claim5_aggregate_mean (kvs : List ℕ) (qrs : List QueryResultE) (k : ℕ)
    (hne : qrs ≠ []) (hk : k ∈ kvs) :
    (aggregate_metrics kvs qrs).mrr =
      (qrs.map (fun qr => qr.metrics.mrr)).sum / (qrs.length : ℚ)
    ∧ dictGetD (aggregate_metrics kvs qrs).precision_at_k k 0 =
      (qrs.map (fun qr => dictGetD qr.metrics.precision_at_k k 0)).sum /
        (qrs.length : ℚ)
    ∧ dictGetD (aggregate_metrics kvs qrs).recall_at_k k 0 =
      (qrs.map (fun qr => dictGetD qr.metrics.recall_at_k k 0)).sum /
        (qrs.length : ℚ)
    ∧ dictGetD (aggregate_metrics kvs qrs).ndcg_at_k k 0 =
      (qrs.map (fun qr => dictGetD qr.metrics.ndcg_at_k k 0)).sum /
        (qrs.length : ℝ) := by
  have hempty : ¬ (qrs.isEmpty = true) := by
    cases qrs with
    | nil => exact absurd rfl hne
    | cons q rest => simp
  rw [aggregate_metrics, if_neg hempty]
  exact ⟨rfl,
    dictGetD_map_self _ 0 kvs k hk,
    dictGetD_map_self _ 0 kvs k hk,
    dictGetD_map_self _ 0 kvs k hk⟩

/-- Witness for C5 at a one-query batch with `k_values = [1]`. -/
theorem claim5_witness :
    (([⟨"q", ["a"], {"a"}, ⟨[(1, 1 / 2)], [(1, 1)], 1 / 3, [(1, (1 : ℝ))]⟩⟩] :
        List QueryResultE) ≠ [])
    ∧ (aggregate_metrics [1]
        [⟨"q", ["a"], {"a"}, ⟨[(1, 1 / 2)], [(1, 1)], 1 / 3, [(1, (1 : ℝ))]⟩⟩]).mrr =
      (([⟨"q", ["a"], {"a"}, ⟨[(1, 1 / 2)], [(1, 1)], 1 / 3, [(1, (1 : ℝ))]⟩⟩] :
          List QueryResultE).map (fun qr => qr.metrics.mrr)).sum /
        ((([⟨"q", ["a"], {"a"}, ⟨[(1, 1 / 2)], [(1, 1)], 1 / 3, [(1, (1 : ℝ))]⟩⟩] :
          List QueryResultE)).length : ℚ) :=
  ⟨by simp,
    (claim5_aggregate_mean [1]
      [⟨"q", ["a"], {"a"}, ⟨[(1, 1 / 2)], [(1, 1)], 1 / 3, [(1, (1 : ℝ))]⟩⟩] 1
      (by simp) (by simp)).1⟩

theorem map_fst_pair_id {β : Type} (f : ℕ → β) (l : List ℕ) :
    l.map (Prod.fst ∘ fun k => (k, f k)) = l := by
  induction l with
  | nil => rfl
  | cons x rest ih => simp [ih]

/-- C8: the three K-indexed metric dicts of an `evaluate_query` result have
identical key sequences, equal to exactly the configured `k_values`
satisfying `k ≤ k_max`; configured values exceeding `k_max` are silently
absent from all three (not zero-filled). -/
theorem claim8_key_sets (cfg : EvalConfig) (store : List Chunk) (q : String)
    (rel : Finset String) (k_max : ℕ)
    (scores : Option (List (String × ℝ))) :
    (evaluate_query cfg store q rel k_max scores).metrics.precision_at_k.map
        Prod.fst = cfg.k_values.filter (fun k => k ≤ k_max)
    ∧ (evaluate_query cfg store q rel k_max scores).metrics.recall_at_k.map
        Prod.fst = cfg.k_values.filter (fun k => k ≤ k_max)
    ∧ (evaluate_query cfg store q rel k_max scores).metrics.ndcg_at_k.map
        Prod.fst = cfg.k_values.filter (fun k => k ≤ k_max) := by
  refine ⟨?_, ?_, ?_⟩ <;>
    · simp only [evaluate_query, List.map_map]
      exact map_fst_pair_id _ _
